import Mathlib

/-!
Shallow embedding of src/src/extension.ts (jsdoc-generator VSCode extension entry
point).  Lines of text are modelled as lists of characters, documents as lists of
lines, editor positions and ranges as structures mirroring the vscode API, and
the host side effects of the command handlers as explicit action lists.
-/

namespace JsdocGeneratorExt

/-- Whitespace test used for the regex character class in the source patterns. -/
def isWS (c : Char) : Bool := c.isWhitespace

/-- Membership in the language of the regex fragment after the slash in the
trailing pattern of retrieveRange: zero or more asterisks followed by
zero or more whitespace characters, consuming the whole list. -/
def isOpenTail (l : List Char) : Bool :=
  (l.dropWhile (fun c => c = '*')).all isWS

/-- Length of the match of the anchored-at-end regex used on the slice of the
line before the cursor in retrieveRange (extension.ts line 56): the leftmost
slash such that everything after it is asterisks then whitespace up to the end
of the slice; none when no such slash exists. -/
def openMatchLen : List Char → Option Nat
  | [] => none
  | c :: rest =>
    if c = '/' && isOpenTail rest then some (rest.length + 1)
    else openMatchLen rest

/-- Length of the match of the anchored-at-start regex used on the slice of the
line from the cursor in retrieveRange (extension.ts line 57): whitespace, then
asterisks, then a slash; none when the slice does not start that way. -/
def closeMatchLen (l : List Char) : Option Nat :=
  match (l.dropWhile isWS).dropWhile (fun c => c = '*') with
  | '/' :: _ =>
    some ((l.takeWhile isWS).length + ((l.dropWhile isWS).takeWhile (fun c => c = '*')).length + 1)
  | _ => none

/-- Editor position: zero-based line and character, as in the vscode API. -/
structure Position where
  line : Nat
  character : Nat
deriving DecidableEq, Repr

/-- Editor range between two positions. -/
structure Range where
  start : Position
  stop : Position
deriving DecidableEq, Repr

/-- The vscode Position.translate method: shifts a position by line and
character deltas, failing (the API throws) when a coordinate would become
negative. -/
def Position.translate (p : Position) (lineDelta charDelta : Int) : Option Position :=
  if (p.line : Int) + lineDelta < 0 ∨ (p.character : Int) + charDelta < 0 then none
  else some ⟨((p.line : Int) + lineDelta).toNat, ((p.character : Int) + charDelta).toNat⟩

/-- GenerateJsdocCompletionItem.retrieveRange (extension.ts lines 55-60): the
slice of the line before the cursor is matched against the trailing opener
pattern and the slice from the cursor against the leading closer pattern; the
range starts at the position translated back by the first match length (or 0)
and ends at the position translated forward by the second match length (or 0). -/
def retrieveRange (line : List Char) (position : Position) : Option Range := do
  let start ← position.translate 0
    (match openMatchLen (line.take position.character) with
     | some n => -(n : Int)
     | none => 0)
  let stop ← position.translate 0
    (match closeMatchLen (line.drop position.character) with
     | some n => (n : Int)
     | none => 0)
  return ⟨start, stop⟩

/-- Completion item kinds; only Snippet is used by the source. -/
inductive CompletionItemKind where
  | Snippet
deriving DecidableEq, Repr

/-- A follow-up command attached to a completion item. -/
structure Command where
  title : String
  command : String
deriving DecidableEq, Repr

/-- The fields of a vscode CompletionItem that the source sets. -/
structure CompletionItem where
  label : String
  kind : CompletionItemKind
  insertText : String
  sortText : String
  range : Option Range
  command : Option Command
deriving DecidableEq, Repr

/-- The GenerateJsdocCompletionItem constructor (extension.ts lines 35-45):
label and kind from the super call, empty insertion text, sort text the NUL
character, range from retrieveRange, and the generateJsdoc follow-up command.
Returns none when retrieveRange fails (an exception in the constructor). -/
def GenerateJsdocCompletionItem (line : List Char) (position : Position) :
    Option CompletionItem :=
  (retrieveRange line position).map (fun r =>
    { label := "/** Autogenerated JSDoc */"
      kind := CompletionItemKind.Snippet
      insertText := ""
      sortText := "\x00"
      range := some r
      command := some { title := "Generate JSDoc", command := "jsdoc-generator.generateJsdoc" } })

/-- A document is its list of line texts. -/
abbrev TextDocument := List (List Char)

/-- The document.lineAt access used by the provider; out-of-range lines are
modelled as empty. -/
def lineAt (document : TextDocument) (n : Nat) : List Char := document.getD n []

/-- The cancellation token parameter of the provider, unused by the source. -/
abbrev CancellationToken := Unit

/-- Test of the anchored regex of provideCompletionItems (extension.ts line 97)
on the slice of the line before the cursor: optional whitespace, the opener
slash-star-star, optional whitespace, end. -/
def isJsdocStart (s : List Char) : Bool :=
  match s.dropWhile isWS with
  | '/' :: '*' :: '*' :: rest => rest.all isWS
  | _ => false

/-- provideCompletionItems (extension.ts lines 94-101): reads the text of the
line at the position, and when the slice before the cursor matches the opener
pattern returns a one-element list holding a fresh GenerateJsdocCompletionItem,
otherwise null. -/
def provideCompletionItems (document : TextDocument) (position : Position)
    (token : CancellationToken) : Option (List CompletionItem) :=
  let line := lineAt document position.line
  if isJsdocStart (line.take position.character) then
    (GenerateJsdocCompletionItem line position).map (fun item => [item])
  else
    none

/-- Modelled from the spec: the JsdocGenerator class is defined in
src/JsdocGenerator.ts, which is not among the inspected sources; here it is an
abstract instance token, since the entry point only constructs it and calls its
two generation methods. -/
structure JsdocGenerator where
  id : Nat
deriving DecidableEq, Repr

/-- Construction of a JsdocGenerator instance (the new expression on
extension.ts line 68). -/
def JsdocGenerator.new : JsdocGenerator := ⟨0⟩

/-- lazyInstantiateJsdocGenerator (extension.ts lines 66-70): constructs the
instance when the module variable is still unset, otherwise leaves it alone.
The module variable jsdocGenerator is passed and returned explicitly. -/
def lazyInstantiateJsdocGenerator (jsdocGenerator : Option JsdocGenerator) :
    Option JsdocGenerator :=
  if jsdocGenerator.isSome then jsdocGenerator else some JsdocGenerator.new

/-- An editor handed to the commands by the host window. -/
structure TextEditor where
  id : Nat
deriving DecidableEq, Repr

/-- The vscode window state the command handlers read. -/
structure Window where
  activeTextEditor : Option TextEditor
deriving DecidableEq, Repr

/-- Host-visible effects performed by the command handlers. -/
inductive HostAction where
  | showErrorMessage (msg : String)
  | showWarningMessage (msg : String)
  | generateJsdoc (editor : TextEditor)
  | generateJsdocFile (editor : TextEditor)
deriving DecidableEq, Repr

/-- The generateJsdoc command handler (extension.ts lines 107-114): lazily
instantiates the generator, then either invokes single-declaration generation
on the active editor or shows an error message. Returns the updated module
variable and the emitted host actions in order. -/
def generateJsdocCommand (jsdocGenerator : Option JsdocGenerator) (window : Window) :
    Option JsdocGenerator × List HostAction :=
  let g := lazyInstantiateJsdocGenerator jsdocGenerator
  match window.activeTextEditor with
  | some editor => (g, [HostAction.generateJsdoc editor])
  | none => (g, [HostAction.showErrorMessage "Unable to generate JSDoc: no editor has been selected."])

/-- The generateJsdocFile command handler (extension.ts lines 116-123): lazily
instantiates the generator, then either invokes whole-file generation on the
active editor or shows an error message. -/
def generateJsdocFileCommand (jsdocGenerator : Option JsdocGenerator) (window : Window) :
    Option JsdocGenerator × List HostAction :=
  let g := lazyInstantiateJsdocGenerator jsdocGenerator
  match window.activeTextEditor with
  | some editor => (g, [HostAction.generateJsdocFile editor])
  | none => (g, [HostAction.showErrorMessage "Unable to generate JSDoc: no editor has been selected."])

/-- The generateJsdocFiles command handler (extension.ts lines 125-129): lazily
instantiates the generator and only shows the not-available warning. -/
def generateJsdocFilesCommand (jsdocGenerator : Option JsdocGenerator) (window : Window) :
    Option JsdocGenerator × List HostAction :=
  let g := lazyInstantiateJsdocGenerator jsdocGenerator
  (g, [HostAction.showWarningMessage "This function is not available yet."])

/-- The host configuration store: a flat partial map from dotted configuration
names to values of the requested type, as read through
vscode.workspace.getConfiguration(). -/
def WorkspaceConfiguration (T : Type) := String → Option T

/-- The vscode WorkspaceConfiguration.get lookup with a default: the stored
value when present, the supplied default otherwise. -/
def WorkspaceConfiguration.get {T : Type} (cfg : WorkspaceConfiguration T)
    (sectionName : String) (defaultValue : T) : T :=
  (cfg sectionName).getD defaultValue

/-- getConfig (extension.ts lines 151-153): reads the configuration value of
the (possibly dotted) name, with the caller-supplied default. -/
def getConfig {T : Type} (cfg : WorkspaceConfiguration T)
    (configurationName : String) (defaultValue : T) : T :=
  cfg.get configurationName defaultValue

/-! Helper lemmas about the regex match length functions. -/

lemma open_sound {s : List Char} {n : Nat} (h : openMatchLen s = some n) :
    ∃ a b, s = a ++ '/' :: b ∧ isOpenTail b = true ∧ n = b.length + 1 := by
  induction s with
  | nil => simp [openMatchLen] at h
  | cons c rest ih =>
    rw [openMatchLen] at h
    split at h
    next hcond =>
      injection h with hn
      obtain ⟨h1, h2⟩ := Bool.and_eq_true_iff.mp hcond
      exact ⟨[], rest, by rw [of_decide_eq_true h1]; rfl, h2, hn.symm⟩
    next hcond =>
      obtain ⟨a, b, hs, hb, hn⟩ := ih h
      exact ⟨c :: a, b, by rw [List.cons_append, hs], hb, hn⟩

lemma open_le {s : List Char} {n : Nat} (h : openMatchLen s = some n) : n ≤ s.length := by
  obtain ⟨a, b, hs, _, hn⟩ := open_sound h
  subst hs
  simp only [List.length_append, List.length_cons]
  omega

lemma open_none {s : List Char} (h : openMatchLen s = none) :
    ∀ a b, s = a ++ '/' :: b → isOpenTail b = false := by
  induction s with
  | nil =>
    intro a b hab
    cases a <;> simp at hab
  | cons c rest ih =>
    rw [openMatchLen] at h
    split at h
    next => exact absurd h (by simp)
    next hcond =>
      intro a b hab
      cases a with
      | nil =>
        simp only [List.nil_append, List.cons.injEq] at hab
        obtain ⟨hc, hr⟩ := hab
        subst hc
        subst hr
        cases hot : isOpenTail rest with
        | false => rfl
        | true => exact absurd (by simp [hot]) hcond
      | cons a0 a2 =>
        simp only [List.cons_append, List.cons.injEq] at hab
        exact ih h a2 b hab.2

lemma open_max {s : List Char} {n : Nat} (h : openMatchLen s = some n) :
    ∀ a b, s = a ++ '/' :: b → isOpenTail b = true → b.length + 1 ≤ n := by
  induction s with
  | nil => simp [openMatchLen] at h
  | cons c rest ih =>
    rw [openMatchLen] at h
    split at h
    next hcond =>
      injection h with hn
      intro a b hab _
      have hlen : (c :: rest).length = (a ++ '/' :: b).length := by rw [hab]
      simp only [List.length_cons, List.length_append] at hlen
      omega
    next hcond =>
      intro a b hab hb
      cases a with
      | nil =>
        simp only [List.nil_append, List.cons.injEq] at hab
        obtain ⟨hc, hr⟩ := hab
        subst hc
        subst hr
        simp [hb] at hcond
      | cons a0 a2 =>
        simp only [List.cons_append, List.cons.injEq] at hab
        exact ih h a2 b hab.2 hb

lemma dropWhile_append_all {p : Char → Bool} {a : List Char} (t : List Char)
    (h : a.all p = true) : (a ++ t).dropWhile p = t.dropWhile p := by
  induction a with
  | nil => rfl
  | cons x xs ih =>
    simp only [List.all_cons, Bool.and_eq_true] at h
    rw [List.cons_append, List.dropWhile_cons_of_pos h.1]
    exact ih h.2

lemma takeWhile_append_all {p : Char → Bool} {a : List Char} (t : List Char)
    (h : a.all p = true) : (a ++ t).takeWhile p = a ++ t.takeWhile p := by
  induction a with
  | nil => rfl
  | cons x xs ih =>
    simp only [List.all_cons, Bool.and_eq_true] at h
    rw [List.cons_append, List.takeWhile_cons_of_pos h.1, ih h.2, List.cons_append]

lemma close_sound {s : List Char} {n : Nat} (h : closeMatchLen s = some n) :
    ∃ a b c, s = a ++ b ++ '/' :: c ∧ a.all isWS = true ∧
      b.all (fun ch => ch = '*') = true ∧ n = a.length + b.length + 1 := by
  unfold closeMatchLen at h
  split at h
  next c2 heq =>
    injection h with hn
    refine ⟨s.takeWhile isWS, (s.dropWhile isWS).takeWhile (fun ch => ch = '*'), c2,
      ?_, List.all_takeWhile, List.all_takeWhile, hn.symm⟩
    conv_lhs => rw [← List.takeWhile_append_dropWhile (p := isWS) (l := s)]
    rw [List.append_assoc]
    congr 1
    conv_lhs =>
      rw [← List.takeWhile_append_dropWhile (p := fun ch => ch = '*') (l := s.dropWhile isWS)]
    rw [heq]
  next => exact absurd h (by simp)

lemma close_complete {a b c : List Char} (ha : a.all isWS = true)
    (hb : b.all (fun ch => ch = '*') = true) :
    closeMatchLen (a ++ b ++ '/' :: c) = some (a.length + b.length + 1) := by
  have hstarNotWS : ∀ x : Char, x = '*' → isWS x = false := by
    intro x hx
    rw [hx]
    decide
  have h1 : (a ++ b ++ '/' :: c).dropWhile isWS = b ++ '/' :: c := by
    rw [List.append_assoc, dropWhile_append_all _ ha]
    cases b with
    | nil => exact List.dropWhile_cons_of_neg (by decide)
    | cons b0 b2 =>
      have hb0 : b0 = '*' := by
        simp only [List.all_cons, Bool.and_eq_true, decide_eq_true_eq] at hb
        exact hb.1
      rw [List.cons_append]
      exact List.dropWhile_cons_of_neg (by simp [hstarNotWS b0 hb0])
  have h2 : (b ++ '/' :: c).dropWhile (fun ch => ch = '*') = '/' :: c := by
    rw [dropWhile_append_all _ hb]
    exact List.dropWhile_cons_of_neg (by decide)
  have h3 : (a ++ b ++ '/' :: c).takeWhile isWS = a := by
    rw [List.append_assoc, takeWhile_append_all _ ha]
    cases b with
    | nil => rw [List.nil_append, List.takeWhile_cons_of_neg (by decide), List.append_nil]
    | cons b0 b2 =>
      have hb0 : b0 = '*' := by
        simp only [List.all_cons, Bool.and_eq_true, decide_eq_true_eq] at hb
        exact hb.1
      rw [List.cons_append, List.takeWhile_cons_of_neg (by simp [hstarNotWS b0 hb0]),
        List.append_nil]
  have h4 : ((a ++ b ++ '/' :: c).dropWhile isWS).takeWhile (fun ch => ch = '*') = b := by
    rw [h1, takeWhile_append_all _ hb, List.takeWhile_cons_of_neg (by decide), List.append_nil]
  have h5 : ((a ++ b ++ '/' :: c).dropWhile isWS).dropWhile (fun ch => ch = '*') = '/' :: c := by
    rw [h1, h2]
  unfold closeMatchLen
  rw [h5, h3, h4]
  rfl

lemma close_le {s : List Char} {n : Nat} (h : closeMatchLen s = some n) :
    1 ≤ n ∧ n ≤ s.length := by
  obtain ⟨a, b, c, hs, _, _, hn⟩ := close_sound h
  subst hs
  simp only [List.length_append, List.length_cons]
  omega

lemma close_none {s : List Char} (h : closeMatchLen s = none) :
    ∀ a b c, s = a ++ b ++ '/' :: c → a.all isWS = true →
      b.all (fun ch => ch = '*') = true → False := by
  intro a b c hs ha hb
  rw [hs, close_complete ha hb] at h
  exact Option.noConfusion h

lemma translate_zero (p : Position) (d : Int) (h : 0 ≤ (p.character : Int) + d) :
    p.translate 0 d = some ⟨p.line, ((p.character : Int) + d).toNat⟩ := by
  unfold Position.translate
  rw [if_neg]
  · rw [Int.add_zero, Int.toNat_natCast]
  · rintro (h1 | h2) <;> omega

lemma retrieveRange_eq (l : List Char) (p : Position) :
    retrieveRange l p =
      some ⟨⟨p.line, p.character - (openMatchLen (l.take p.character)).getD 0⟩,
            ⟨p.line, p.character + (closeMatchLen (l.drop p.character)).getD 0⟩⟩ := by
  unfold retrieveRange
  cases hp : openMatchLen (l.take p.character) with
  | none =>
    cases hs : closeMatchLen (l.drop p.character) with
    | none =>
      dsimp only
      rw [translate_zero p 0 (by omega)]
      simp only [Option.bind_eq_bind, Option.some_bind, Option.pure_def, Option.getD_none]
      simp only [Option.some.injEq, Range.mk.injEq, Position.mk.injEq]
      exact ⟨⟨trivial, by omega⟩, trivial, by omega⟩
    | some m =>
      dsimp only
      rw [translate_zero p 0 (by omega), translate_zero p (m : Int) (by omega)]
      simp only [Option.bind_eq_bind, Option.some_bind, Option.pure_def, Option.getD_none, Option.getD_some]
      simp only [Option.some.injEq, Range.mk.injEq, Position.mk.injEq]
      exact ⟨⟨trivial, by omega⟩, trivial, by omega⟩
  | some n =>
    have hn : n ≤ p.character := by
      have h1 := open_le hp
      rw [List.length_take] at h1
      omega
    cases hs : closeMatchLen (l.drop p.character) with
    | none =>
      dsimp only
      rw [translate_zero p (-(n : Int)) (by omega), translate_zero p 0 (by omega)]
      simp only [Option.bind_eq_bind, Option.some_bind, Option.pure_def, Option.getD_none, Option.getD_some]
      simp only [Option.some.injEq, Range.mk.injEq, Position.mk.injEq]
      exact ⟨⟨trivial, by omega⟩, trivial, by omega⟩
    | some m =>
      dsimp only
      rw [translate_zero p (-(n : Int)) (by omega), translate_zero p (m : Int) (by omega)]
      simp only [Option.bind_eq_bind, Option.some_bind, Option.pure_def, Option.getD_some]
      simp only [Option.some.injEq, Range.mk.injEq, Position.mk.injEq]
      exact ⟨⟨trivial, by omega⟩, trivial, by omega⟩

lemma isJsdocStart_iff {s : List Char} :
    isJsdocStart s = true ↔
      ∃ a b, s = a ++ '/' :: '*' :: '*' :: b ∧ a.all isWS = true ∧ b.all isWS = true := by
  constructor
  · intro h
    unfold isJsdocStart at h
    split at h
    next rest heq =>
      refine ⟨s.takeWhile isWS, rest, ?_, List.all_takeWhile, h⟩
      conv_lhs => rw [← List.takeWhile_append_dropWhile (p := isWS) (l := s)]
      rw [heq]
    next => exact absurd h (by simp)
  · rintro ⟨a, b, rfl, ha, hb⟩
    unfold isJsdocStart
    have h1 : (a ++ '/' :: '*' :: '*' :: b).dropWhile isWS = '/' :: '*' :: '*' :: b := by
      rw [dropWhile_append_all _ ha]
      exact List.dropWhile_cons_of_neg (by decide)
    rw [h1]
    exact hb

/-- The completion item built for a given line and position, with the range
filled in by retrieveRange. -/
def builtItem (line : List Char) (p : Position) : CompletionItem :=
  { label := "/** Autogenerated JSDoc */"
    kind := CompletionItemKind.Snippet
    insertText := ""
    sortText := "\x00"
    range := some ⟨⟨p.line, p.character - (openMatchLen (line.take p.character)).getD 0⟩,
                   ⟨p.line, p.character + (closeMatchLen (line.drop p.character)).getD 0⟩⟩
    command := some { title := "Generate JSDoc", command := "jsdoc-generator.generateJsdoc" } }

lemma generateItem_eq (line : List Char) (p : Position) :
    GenerateJsdocCompletionItem line p = some (builtItem line p) := by
  rw [GenerateJsdocCompletionItem, retrieveRange_eq]
  rfl

lemma provide_pos {d : TextDocument} {p : Position} (tk : CancellationToken)
    (h : isJsdocStart ((lineAt d p.line).take p.character) = true) :
    provideCompletionItems d p tk = some [builtItem (lineAt d p.line) p] := by
  unfold provideCompletionItems
  rw [if_pos h, generateItem_eq]
  rfl

lemma provide_neg {d : TextDocument} {p : Position} (tk : CancellationToken)
    (h : isJsdocStart ((lineAt d p.line).take p.character) = false) :
    provideCompletionItems d p tk = none := by
  unfold provideCompletionItems
  rw [if_neg]
  rw [h]
  exact Bool.false_ne_true

/-! Claim theorems. -/

/-- C1: the range computed by retrieveRange extends backward from the position
by exactly the length of the trailing comment-opener match (the leftmost slash
followed only by asterisks then whitespace up to the position, hence the longest
such trailing match) and forward by exactly the length of the leading
comment-closer match (whitespace then asterisks then a slash starting at the
position); when a pattern is absent on a side the range does not extend on that
side, and in the scenario with the opener immediately before and the closer
immediately after the cursor the replaced span is exactly that opener-closer
text. -/
theorem retrieveRange_match_extension (l : List Char) (p : Position) (r : Range)
    (h : retrieveRange l p = some r) :
    (∀ n, openMatchLen (l.take p.character) = some n →
      n ≤ p.character ∧ r.start.character = p.character - n ∧
      (∃ a b, l.take p.character = a ++ '/' :: b ∧ isOpenTail b = true ∧ n = b.length + 1) ∧
      (∀ a2 b2, l.take p.character = a2 ++ '/' :: b2 → isOpenTail b2 = true →
        b2.length + 1 ≤ n)) ∧
    (openMatchLen (l.take p.character) = none → r.start.character = p.character) ∧
    (∀ n, closeMatchLen (l.drop p.character) = some n →
      r.stop.character = p.character + n ∧
      ∃ a b c, l.drop p.character = a ++ b ++ '/' :: c ∧ a.all isWS = true ∧
        b.all (fun ch => ch = '*') = true ∧ n = a.length + b.length + 1) ∧
    (closeMatchLen (l.drop p.character) = none → r.stop.character = p.character) ∧
    retrieveRange ['/', '*', '*', ' ', '*', '/'] ⟨0, 3⟩ = some ⟨⟨0, 0⟩, ⟨0, 6⟩⟩ := by
  rw [retrieveRange_eq] at h
  injection h with h
  subst h
  refine ⟨?_, ?_, ?_, ?_, by decide⟩
  · intro n hn
    have hb := open_le hn
    rw [List.length_take] at hb
    refine ⟨by omega, ?_, open_sound hn, open_max hn⟩
    rw [hn, Option.getD_some]
  · intro hnone
    rw [hnone]
    rfl
  · intro n hn
    refine ⟨?_, close_sound hn⟩
    rw [hn, Option.getD_some]
  · intro hnone
    rw [hnone]
    rfl

theorem retrieveRange_match_extension_witness :
    (⟨⟨0, 1⟩, ⟨0, 1⟩⟩ : Range).start.character = 1 :=
  (retrieveRange_match_extension ['a', 'b'] ⟨0, 1⟩ ⟨⟨0, 1⟩, ⟨0, 1⟩⟩ (by decide)).2.1
    (by decide)

/-- C3: both endpoints of the range resolved for the completion affordance keep
the triggering position's line number, so the span never reaches a different
line. -/
theorem retrieveRange_same_line (l : List Char) (p : Position) (r : Range)
    (h : retrieveRange l p = some r) :
    r.start.line = p.line ∧ r.stop.line = p.line := by
  rw [retrieveRange_eq] at h
  injection h with h
  subst h
  exact ⟨rfl, rfl⟩

theorem retrieveRange_same_line_witness :
    (⟨⟨0, 0⟩, ⟨0, 6⟩⟩ : Range).start.line = 0 ∧ (⟨⟨0, 0⟩, ⟨0, 6⟩⟩ : Range).stop.line = 0 :=
  retrieveRange_same_line ['/', '*', '*', ' ', '*', '/'] ⟨0, 3⟩ ⟨⟨0, 0⟩, ⟨0, 6⟩⟩ (by decide)

/-- C10: for a position within the line bounds retrieveRange always succeeds
(the failing branch of position translation is unreachable), the range is
well-formed around the position, its end stays within the line, and with no
delimiter match on either side it degenerates to the empty range at the
position. -/
theorem retrieveRange_wellformed (l : List Char) (p : Position)
    (h : p.character ≤ l.length) :
    ∃ r, retrieveRange l p = some r ∧
      r.start.character ≤ p.character ∧ p.character ≤ r.stop.character ∧
      r.stop.character ≤ l.length ∧
      (openMatchLen (l.take p.character) = none →
        closeMatchLen (l.drop p.character) = none → r = ⟨p, p⟩) := by
  refine ⟨_, retrieveRange_eq l p, ?_, ?_, ?_, ?_⟩
  · dsimp only
    omega
  · dsimp only
    omega
  · dsimp only
    cases hs : closeMatchLen (l.drop p.character) with
    | none =>
      rw [Option.getD_none]
      omega
    | some m =>
      rw [Option.getD_some]
      have hm := (close_le hs).2
      rw [List.length_drop] at hm
      omega
  · intro h1 h2
    rw [h1, h2]
    cases p
    simp

theorem retrieveRange_wellformed_witness :
    ∃ r, retrieveRange ['a', 'b'] ⟨0, 1⟩ = some r ∧
      r.start.character ≤ 1 ∧ 1 ≤ r.stop.character ∧ r.stop.character ≤ 2 ∧
      (openMatchLen (['a', 'b'].take 1) = none →
        closeMatchLen (['a', 'b'].drop 1) = none → r = ⟨⟨0, 1⟩, ⟨0, 1⟩⟩) :=
  retrieveRange_wellformed ['a', 'b'] ⟨0, 1⟩ (by decide)

/-- C2: the completion provider offers the generate item exactly when the text
of the current line strictly before the cursor consists of optional whitespace,
then the opener slash-star-star, then optional whitespace and nothing else; in
every other case it returns null. -/
theorem provideCompletionItems_trigger (d : TextDocument) (p : Position)
    (tk : CancellationToken) :
    ((∃ items, provideCompletionItems d p tk = some items) ↔
      ∃ a b, (lineAt d p.line).take p.character = a ++ '/' :: '*' :: '*' :: b ∧
        a.all isWS = true ∧ b.all isWS = true) ∧
    (provideCompletionItems d p tk = none ↔
      ¬ ∃ a b, (lineAt d p.line).take p.character = a ++ '/' :: '*' :: '*' :: b ∧
        a.all isWS = true ∧ b.all isWS = true) := by
  cases hj : isJsdocStart ((lineAt d p.line).take p.character) with
  | true =>
    have hpat := isJsdocStart_iff.mp hj
    have hsome := provide_pos tk hj
    refine ⟨⟨fun _ => hpat, fun _ => ⟨_, hsome⟩⟩, ?_, fun hn => absurd hpat hn⟩
    intro hn
    rw [hsome] at hn
    exact absurd hn (by simp)
  | false =>
    have hpat : ¬ ∃ a b, (lineAt d p.line).take p.character = a ++ '/' :: '*' :: '*' :: b ∧
        a.all isWS = true ∧ b.all isWS = true := by
      intro hx
      rw [isJsdocStart_iff.mpr hx] at hj
      exact absurd hj (by decide)
    have hnone := provide_neg tk hj
    refine ⟨⟨?_, fun hx => absurd hx hpat⟩, fun _ => hpat, fun _ => hnone⟩
    rintro ⟨items, hi⟩
    rw [hnone] at hi
    exact absurd hi (by simp)

theorem provideCompletionItems_trigger_witness :
    ∃ a b, (lineAt [['/', '*', '*']] (Position.mk 0 3).line).take (Position.mk 0 3).character =
        a ++ '/' :: '*' :: '*' :: b ∧ a.all isWS = true ∧ b.all isWS = true :=
  (provideCompletionItems_trigger [['/', '*', '*']] ⟨0, 3⟩ ()).1.mp
    ⟨_, provide_pos () (by decide)⟩

/-- C9: the completion provider returns either null or a list of exactly one
item, and that item has empty insertion text, the NUL sort text, and the
generateJsdoc follow-up command. -/
theorem provideCompletionItems_item_shape (d : TextDocument) (p : Position)
    (tk : CancellationToken) :
    provideCompletionItems d p tk = none ∨
    ∃ item, provideCompletionItems d p tk = some [item] ∧
      item.insertText = "" ∧ item.sortText = "\x00" ∧
      item.command =
        some { title := "Generate JSDoc", command := "jsdoc-generator.generateJsdoc" } := by
  cases hj : isJsdocStart ((lineAt d p.line).take p.character) with
  | false => exact Or.inl (provide_neg tk hj)
  | true => exact Or.inr ⟨builtItem (lineAt d p.line) p, provide_pos tk hj, rfl, rfl, rfl⟩

theorem provideCompletionItems_item_shape_witness :
    provideCompletionItems [['/', '*', '*', ' ']] ⟨0, 4⟩ () = none ∨
    ∃ item, provideCompletionItems [['/', '*', '*', ' ']] ⟨0, 4⟩ () = some [item] ∧
      item.insertText = "" ∧ item.sortText = "\x00" ∧
      item.command =
        some { title := "Generate JSDoc", command := "jsdoc-generator.generateJsdoc" } :=
  provideCompletionItems_item_shape [['/', '*', '*', ' ']] ⟨0, 4⟩ ()

/-- C8: range resolution and the provider decision are deterministic functions
of the line text and position alone: equal inputs give equal results, and the
provider output does not depend on the rest of the document or on the
cancellation token. -/
theorem range_resolution_pure :
    (∀ (l1 l2 : List Char) (p1 p2 : Position), l1 = l2 → p1 = p2 →
      retrieveRange l1 p1 = retrieveRange l2 p2) ∧
    (∀ (d1 d2 : TextDocument) (p1 p2 : Position) (tk1 tk2 : CancellationToken),
      lineAt d1 p1.line = lineAt d2 p2.line → p1 = p2 →
      provideCompletionItems d1 p1 tk1 = provideCompletionItems d2 p2 tk2) := by
  constructor
  · rintro l1 l2 p1 p2 rfl rfl
    rfl
  · rintro d1 d2 p1 p2 tk1 tk2 hline rfl
    unfold provideCompletionItems
    rw [hline]

theorem range_resolution_pure_witness :
    provideCompletionItems [['/', '*', '*']] ⟨0, 3⟩ () =
      provideCompletionItems [['/', '*', '*'], ['x']] ⟨0, 3⟩ () :=
  range_resolution_pure.2 [['/', '*', '*']] [['/', '*', '*'], ['x']] ⟨0, 3⟩ ⟨0, 3⟩ () ()
    (by decide) rfl

/-- C4: with no active editor, both the generateJsdoc and the generateJsdocFile
handlers only show the error message and never invoke generation; with an
active editor each handler invokes its generation entry point exactly once on
that editor. -/
theorem generate_commands_active_editor (g : Option JsdocGenerator) (w : Window) :
    (w.activeTextEditor = none →
      (generateJsdocCommand g w).2 =
        [HostAction.showErrorMessage "Unable to generate JSDoc: no editor has been selected."] ∧
      (generateJsdocFileCommand g w).2 =
        [HostAction.showErrorMessage "Unable to generate JSDoc: no editor has been selected."]) ∧
    (∀ e, w.activeTextEditor = some e →
      (generateJsdocCommand g w).2 = [HostAction.generateJsdoc e] ∧
      (generateJsdocFileCommand g w).2 = [HostAction.generateJsdocFile e]) := by
  constructor
  · intro hn
    unfold generateJsdocCommand generateJsdocFileCommand
    rw [hn]
    exact ⟨rfl, rfl⟩
  · intro e he
    unfold generateJsdocCommand generateJsdocFileCommand
    rw [he]
    exact ⟨rfl, rfl⟩

theorem generate_commands_active_editor_witness :
    (generateJsdocCommand none ⟨none⟩).2 =
      [HostAction.showErrorMessage "Unable to generate JSDoc: no editor has been selected."] ∧
    (generateJsdocFileCommand none ⟨none⟩).2 =
      [HostAction.showErrorMessage "Unable to generate JSDoc: no editor has been selected."] :=
  (generate_commands_active_editor none ⟨none⟩).1 rfl

/-- C5: the generate-for-every-file command only lazily instantiates the
generator and shows the not-available warning; its action list contains no
generation action and no edit, for every state. -/
theorem generateJsdocFilesCommand_stub (g : Option JsdocGenerator) (w : Window) :
    generateJsdocFilesCommand g w =
      (lazyInstantiateJsdocGenerator g,
        [HostAction.showWarningMessage "This function is not available yet."]) :=
  rfl

/-- C6: lazyInstantiateJsdocGenerator constructs the instance on the first call,
leaves an existing instance untouched on every later call, and is idempotent on
the module variable. -/
theorem lazyInstantiateJsdocGenerator_idempotent :
    lazyInstantiateJsdocGenerator none = some JsdocGenerator.new ∧
    (∀ g, lazyInstantiateJsdocGenerator (some g) = some g) ∧
    (∀ s, lazyInstantiateJsdocGenerator (lazyInstantiateJsdocGenerator s) =
      lazyInstantiateJsdocGenerator s) := by
  refine ⟨rfl, fun g => rfl, fun s => ?_⟩
  cases s <;> rfl

/-- C7: getConfig returns the stored configuration value under the given
(possibly dotted) name when one exists, and the caller-supplied default when no
value could be found. -/
theorem getConfig_default (T : Type) (cfg : WorkspaceConfiguration T)
    (configurationName : String) (defaultValue : T) :
    (∀ v, cfg configurationName = some v →
      getConfig cfg configurationName defaultValue = v) ∧
    (cfg configurationName = none →
      getConfig cfg configurationName defaultValue = defaultValue) := by
  constructor
  · intro v hv
    unfold getConfig WorkspaceConfiguration.get
    rw [hv]
    rfl
  · intro hn
    unfold getConfig WorkspaceConfiguration.get
    rw [hn]
    rfl

theorem getConfig_default_witness :
    getConfig (fun s => if s = "jsdoc-generator.descriptionPlaceholder" then some 7 else none)
      "jsdoc-generator.descriptionPlaceholder" 0 = 7 :=
  (getConfig_default Nat
      (fun s => if s = "jsdoc-generator.descriptionPlaceholder" then some 7 else none)
      "jsdoc-generator.descriptionPlaceholder" 0).1 7 (by simp)

end JsdocGeneratorExt
